import Mathlib

/-!
Shallow embedding of the batching / collation subsystem of
`cnlp/fastai_extended.py`: `LanguageModelLoader` (`batchify`, `get_batch`,
`__iter__`, `__len__`), `ShuffledLanguageModelLoader.__iter__`,
`TextDataset.__getitem__` and `FixedLengthDataLoader.jag_stack`.

Token streams are `List Int`; 2-D tensors / NumPy arrays are `List (List Int)`
in row-major order.  Python slicing (which clamps out-of-range bounds) is
`listSlice`; `tensor.view(-1)` on a row-major 2-D slice is `List.flatten`;
NumPy `.T` on a rectangular array is `npTranspose`.  Fallible NumPy
operations (reshape with `-1`, slice assignment with broadcasting) return
`Except String _`.  The random draws consumed by the iterators
(`np.random.random`, `np.random.normal`, `random.randint`) are modelled as
explicit function parameters, so every theorem quantifies over all possible
outcomes of the draws.
-/

/-- Python slice `l[a:b]` (for `0 ≤ a ≤ b`): clamps out-of-range bounds. -/
def listSlice (l : List Int) (a b : Nat) : List Int :=
  (l.drop a).take (b - a)

/-- Row `r` of NumPy `reshape(bs, -1)` in C order is `d[r*nb:(r+1)*nb]`;
`chunkRows nb bs d` builds the `bs` rows of width `nb` in order. -/
def chunkRows (nb : Nat) : Nat → List Int → List (List Int)
  | 0, _ => []
  | bs + 1, d => d.take nb :: chunkRows nb bs (d.drop nb)

/-- NumPy transpose `.T` of a rectangular 2-D array: entry `(j, r)` of the
result is entry `(r, j)` of the argument. -/
def npTranspose (m : List (List Int)) : List (List Int) :=
  (List.range (m.headD []).length).map (fun j => m.map (fun row => row.getD j 0))

/-- NumPy `data.reshape(bs, -1)`: the unknown dimension is `size / bs`;
NumPy raises when the known product `bs` is `0` or does not divide the
total size (for a size-0 array with `bs > 0` the result is shape `(bs, 0)`,
no error). -/
def npReshapeRows (bs : Nat) (d : List Int) : Except String (List (List Int)) :=
  if bs = 0 then .error "cannot reshape array"
  else if d.length % bs ≠ 0 then .error "cannot reshape array"
  else .ok (chunkRows (d.length / bs) bs d)

/-- Rows of `LanguageModelLoader.batchify` before the optional transpose:
truncate to `nb * bs` tokens (`nb = len // bs`), reshape into `bs` rows,
optionally reverse each row (`data[:, ::-1]`). -/
def batchifyRows (bs : Nat) (backwards : Bool) (data : List Int) : List (List Int) :=
  let nb := data.length / bs
  let d := data.take (nb * bs)
  let rows := chunkRows nb bs d
  if backwards then rows.map List.reverse else rows

/-- Value computed by `LanguageModelLoader.batchify` (lines 80-88): the row
matrix, transposed unless `batch_first`. -/
def batchify (bs : Nat) (backwards batch_first : Bool) (data : List Int) :
    List (List Int) :=
  if batch_first then batchifyRows bs backwards data
  else npTranspose (batchifyRows bs backwards data)

/-- Fallible version of `batchify` recording whether any NumPy call in it
raises: `nb = data.shape[0] // bs` (ZeroDivisionError when `bs = 0`), then
`reshape(bs, -1)` via `npReshapeRows`.  When it returns `.ok`, the value is
`batchify`. -/
def batchifyE (bs : Nat) (backwards batch_first : Bool) (data : List Int) :
    Except String (List (List Int)) :=
  if bs = 0 then .error "ZeroDivisionError"
  else
    let nb := data.length / bs
    match npReshapeRows bs (data.take (nb * bs)) with
    | .error e => .error e
    | .ok rows =>
      let rows := if backwards then rows.map List.reverse else rows
      .ok (if batch_first then rows else npTranspose rows)

/-- Python `self.n = data.size(1) if batch_first else data.size(0)`:
the per-stream row count of the stored matrix. -/
def nOf (batch_first : Bool) (m : List (List Int)) : Nat :=
  if batch_first then (m.headD []).length else m.length

/-- Python `LanguageModelLoader.__len__`: `n // bptt - 1` on Python ints
(may be negative). -/
def pyLen (n bptt : Nat) : Int :=
  (n : Int) / (bptt : Int) - 1

/-- Body of `LanguageModelLoader.get_batch(i, seq_len)` (lines 90-100):
`target_offset = max(0, seq_len - target_length)` (Nat subtraction);
input is the block `[i, i+seq_len)` along the stream axis of the stored
matrix, target is the block `[i+1+target_offset, i+1+seq_len)` flattened
row-major by `.view(-1)`. -/
def get_batch (batch_first : Bool) (target_length : Nat)
    (source : List (List Int)) (i seq_len : Nat) :
    List (List Int) × List Int :=
  let target_offset := seq_len - target_length
  if batch_first then
    (source.map (fun row => listSlice row i (i + seq_len)),
     (source.map (fun row =>
        listSlice row (i + 1 + target_offset) (i + 1 + seq_len))).flatten)
  else
    (listSlice' source i (i + seq_len),
     (listSlice' source (i + 1 + target_offset) (i + 1 + seq_len)).flatten)
where
  /-- Python slice on the outer (row) axis of a 2-D tensor. -/
  listSlice' (m : List (List Int)) (a b : Nat) : List (List Int) :=
    (m.drop a).take (b - a)

/-- Python `int(max(5, min(int(np.random.normal(bptt, 5)), bptt + MAX_PLUS)))`
for an arbitrary outcome `d` of `int(np.random.normal(...))` (lines 60-66);
`max_possible_seq_len` in randomized mode is `bptt + 25`. -/
def randSeqLen (bptt : Nat) (d : Int) : Nat :=
  (max 5 (min d ((bptt : Int) + 25))).toNat

/-- Value of `LanguageModelLoader.max_possible_seq_len` (lines 47-51). -/
def max_possible_seq_len (randomize_bptt : Bool) (bptt : Nat) : Nat :=
  if randomize_bptt then bptt + 25 else bptt

/-- Loop of `LanguageModelLoader.__iter__` (lines 53-75), recording the
`(cursor, seq_len)` pair of every batch yielded before the pass ends —
normally or by exception.  `f i iter` is the chunk length the body chooses
at cursor `i`, iteration counter `iter`.  Guard:
`while i < n - 1 and iter < len(self)`; body: `if i + seq_len >= n: break`,
else yield and advance `i += seq_len; iter += 1`.  This function records
only the yielded batches: CPython's `len(self)` raises
`ValueError: __len__() should return >= 0` when `__len__` returns a
negative int and the left conjunct of the guard is true (reachable for
`2 ≤ n < bptt`, where `pyLen` is `-1`); that error path of the full pass
is modelled by `lmIterAuxE`, whose yielded prefix this function computes
(with a negative `lenI` the comparison `iter < lenI` is false, so nothing
is recorded, matching the empty yielded prefix of the raising pass).
The structural `fuel` argument only bounds the recursion; the top-level
wrappers pass `(pyLen n bptt).toNat`, which the guard `iter < len(self)`
makes sufficient (each step increments `iter`, and the guard needs
`iter < pyLen`). -/
def lmIterAux (f : Nat → Nat → Nat) (n : Nat) (lenI : Int) :
    Nat → Nat → Nat → List (Nat × Nat)
  | 0, _, _ => []
  | fuel + 1, i, iter =>
    if i < n - 1 ∧ (iter : Int) < lenI then
      let s := f i iter
      if i + s ≥ n then []
      else (i, s) :: lmIterAux f n lenI fuel (i + s) (iter + 1)
    else []

/-- Trace of cursor positions and chunk lengths of one pass of
`LanguageModelLoader.__iter__` with `randomize_bptt = False`: the chunk
length is always `bptt`. -/
def lmTraceFixed (bptt n : Nat) : List (Nat × Nat) :=
  lmIterAux (fun _ _ => bptt) n (pyLen n bptt) (pyLen n bptt).toNat 0 0

/-- Full outcome of the `__iter__` loop including the CPython error path:
each time the guard's left conjunct `i < n - 1` is true, `len(self)` is
evaluated, and CPython raises `ValueError: __len__() should return >= 0`
when `__len__` returns a negative int (`lenI < 0`); otherwise the loop
proceeds as in `lmIterAux`.  The result is the list of yielded batches on
normal termination, or the error if the pass raises.  The top-level
wrapper passes `(pyLen n bptt).toNat + 1` as fuel, one more than the
yield bound, so every guard evaluation happens inside the `fuel + 1`
case. -/
def lmIterAuxE (f : Nat → Nat → Nat) (n : Nat) (lenI : Int) :
    Nat → Nat → Nat → Except String (List (Nat × Nat))
  | 0, _, _ => .ok []
  | fuel + 1, i, iter =>
    if i < n - 1 then
      if lenI < 0 then .error "ValueError: __len__() should return >= 0"
      else if (iter : Int) < lenI then
        let s := f i iter
        if i + s ≥ n then .ok []
        else
          match lmIterAuxE f n lenI fuel (i + s) (iter + 1) with
          | .error e => .error e
          | .ok rest => .ok ((i, s) :: rest)
      else .ok []
    else .ok []

/-- Complete pass of `LanguageModelLoader.__iter__` with
`randomize_bptt = False`, including the `ValueError` raised when the
guard evaluates `len(self)` while `__len__` is negative. -/
def lmPassFixed (bptt n : Nat) : Except String (List (Nat × Nat)) :=
  lmIterAuxE (fun _ _ => bptt) n (pyLen n bptt) ((pyLen n bptt).toNat + 1) 0 0

/-- Chunk length chosen by the `randomize_bptt = True` branch of
`__iter__` (lines 56-66): `bptt + 5 * 5` at cursor `0`, otherwise the
clamped draw.  `draws iter` is the outcome of `int(np.random.normal(...))`
at iteration `iter` (the Bernoulli halving of the mean only shifts the
distribution of that integer, which is arbitrary here). -/
def lmRandSeqLen (bptt : Nat) (draws : Nat → Int) (i iter : Nat) : Nat :=
  if i = 0 then bptt + 5 * 5 else randSeqLen bptt (draws iter)

/-- Trace of one pass of `LanguageModelLoader.__iter__` with
`randomize_bptt = True`, for a given stream of integer draws. -/
def lmTraceRand (bptt n : Nat) (draws : Nat → Int) : List (Nat × Nat) :=
  lmIterAux (lmRandSeqLen bptt draws) n (pyLen n bptt) (pyLen n bptt).toNat 0 0

/-- Trace of `ShuffledLanguageModelLoader.__iter__` (lines 121-138): for
`step in range(len(self))` draw a start offset (`offs step` models
`random.randint(0, n - max_possible_seq_len - 1)`) and choose a chunk
length with the same policy as the streaming loader except that the
oversized first chunk is keyed on `step == 0`.  Python `range` of a
negative length is empty, as is `List.range` of the truncated `Nat`
subtraction `n / bptt - 1`. -/
def shuffledTrace (randomize_bptt : Bool) (bptt n : Nat)
    (offs : Nat → Nat) (draws : Nat → Int) : List (Nat × Nat) :=
  (List.range (n / bptt - 1)).map (fun step =>
    (offs step,
     if randomize_bptt then
       if step = 0 then bptt + 5 * 5 else randSeqLen bptt (draws step)
     else bptt))

/-- NumPy `np.stack(b)` for a list of 1-D arrays: requires every array to
have the same shape, producing the `(len(b), L)` matrix (i.e. the list
itself); raises otherwise. -/
def npStack (b : List (List Int)) : Except String (List (List Int)) :=
  match b with
  | [] => .error "need at least one array to stack"
  | b0 :: rest =>
    if (b0 :: rest).all (fun o => o.length = b0.length) then .ok (b0 :: rest)
    else .error "all input arrays must have the same shape"

/-- NumPy slice assignment `res[i, -len(o):] = o` (pre-pad) or
`res[i, :len(o)] = o` (post-pad) into a fresh row `ml * [pad]`
(`np.zeros((len(b), ml)) + pad_idx`).  Python negative slice bounds clamp
(`-0` is `0`, `-k` with `k > ml` clamps to `0`); NumPy assignment
broadcasts the value to the slice shape, which for 1-D succeeds exactly
when the lengths agree or the value has length 1 (a length-1 dimension
broadcasts to any slice length, including 0). -/
def pyAssign (pre_pad : Bool) (ml : Nat) (pad : Int) (o : List Int) :
    Except String (List Int) :=
  let row := List.replicate ml pad
  let k := o.length
  let start := if pre_pad then (if k = 0 then 0 else ml - k) else 0
  let stop := if pre_pad then ml else min k ml
  let m := stop - start
  if k = m then .ok (row.take start ++ o ++ row.drop stop)
  else if k = 1 then
    .ok (row.take start ++ List.replicate m (o.headD 0) ++ row.drop stop)
  else .error "could not broadcast input array"

/-- For-loop of `jag_stack` filling row `i` from example `i`; each row of
`res` is written by exactly one example, and the first failing assignment
raises out of the loop. -/
def jagLoop (pre_pad : Bool) (ml : Nat) (pad : Int) :
    List (List Int) → Except String (List (List Int))
  | [] => .ok []
  | o :: rest =>
    match pyAssign pre_pad ml pad o with
    | .error e => .error e
    | .ok row =>
      match jagLoop pre_pad ml pad rest with
      | .error e => .error e
      | .ok rows => .ok (row :: rows)

/-- Body of `FixedLengthDataLoader.jag_stack` (lines 202-210) for a batch
of 1-D examples (so `len(b[0].shape) == 1` and the early `np.stack` return
is not taken; `b[0]` on an empty batch is an IndexError).  `ml` is
`self.seq_length`; the fast path fires when `min(len(o) for o in b) == ml`;
otherwise a pad-filled `(len(b), ml)` matrix is filled row by row. -/
def jag_stack (ml : Nat) (pad : Int) (pre_pad : Bool) (b : List (List Int)) :
    Except String (List (List Int)) :=
  match b with
  | [] => .error "IndexError: list index out of range"
  | b0 :: rest =>
    if rest.foldl (fun m o => min m o.length) b0.length = ml then
      npStack (b0 :: rest)
    else jagLoop pre_pad ml pad (b0 :: rest)

/-- Truncation step of `TextDataset.__getitem__` (lines 156-160):
when `max_seq_len > 0`, keep the head `x[:max_seq_len]` if `cut_tail`,
else keep the tail `x[-max_seq_len:]` (Python tail slice of a list shorter
than `max_seq_len` is the whole list, matching the truncated `Nat`
subtraction). -/
def truncStep (max_seq_len : Int) (cut_tail : Bool) (x : List Int) : List Int :=
  if max_seq_len > 0 then
    if cut_tail then x.take max_seq_len.toNat
    else x.drop (x.length - max_seq_len.toNat)
  else x

/-- Reversal step: `if self.backwards: x = list(reversed(x))` (line 161). -/
def revStep (backwards : Bool) (x : List Int) : List Int :=
  if backwards then x.reverse else x

/-- End-sentinel step: `if self.eos is not None: x = x + [self.eos]`
(line 162). -/
def eosStep (eos : Option Int) (x : List Int) : List Int :=
  match eos with
  | some e => x ++ [e]
  | none => x

/-- Start-sentinel step: `if self.sos is not None: x = [self.sos] + x`
(line 163). -/
def sosStep (sos : Option Int) (x : List Int) : List Int :=
  match sos with
  | some s => s :: x
  | none => x

/-- Configuration and data of a `TextDataset` (lines 141-152). -/
structure TextDatasetM where
  x : List (List Int)
  y : List Int
  backwards : Bool
  sos : Option Int
  eos : Option Int
  max_seq_len : Int
  cut_tail : Bool

/-- Literal translation of `TextDataset.__getitem__` (lines 154-164): the
four conditional rebindings of the local `x`, then `return np.array(x),
self.y[idx]` (the `np.array` conversion preserves the token list). -/
def TextDatasetM.getitem (ds : TextDatasetM) (idx : Nat) : List Int × Int :=
  let x := ds.x.getD idx []
  let x := if ds.max_seq_len > 0 then
      (if ds.cut_tail then x.take ds.max_seq_len.toNat
       else x.drop (x.length - ds.max_seq_len.toNat))
    else x
  let x := if ds.backwards then x.reverse else x
  let x := match ds.eos with
    | some e => x ++ [e]
    | none => x
  let x := match ds.sos with
    | some s => s :: x
    | none => x
  (x, ds.y.getD idx 0)

/-! Generic list lemmas used to relate slices, flattening and transposition
to element-level access. -/

theorem slice_getElem? {α} (l : List α) (a w j : Nat) :
    ((l.drop a).take w)[j]? = if j < w then l[a + j]? else none := by
  by_cases h : j < w
  · rw [List.getElem?_take_of_lt h, List.getElem?_drop, if_pos h]
  · rw [if_neg h]
    apply List.getElem?_eq_none
    have := List.length_take (l := l.drop a) (i := w)
    omega

theorem slice_length {α} (l : List α) (a w : Nat) :
    ((l.drop a).take w).length = min w (l.length - a) := by
  simp

theorem flatten_length_uniform {α} (w : Nat) :
    ∀ (L : List (List α)), (∀ row ∈ L, row.length = w) →
      L.flatten.length = L.length * w
  | [], _ => by simp
  | x :: xs, h => by
    have hx : x.length = w := h x (by simp)
    have ih := flatten_length_uniform w xs (fun row hr => h row (by simp [hr]))
    simp [List.flatten_cons, hx, ih, Nat.succ_mul, Nat.add_comm]

theorem flatten_getElem?_uniform {α} (w : Nat) :
    ∀ (L : List (List α)) (r j : Nat), (∀ row ∈ L, row.length = w) → j < w →
      L.flatten[r * w + j]? = (L[r]?.bind fun row => row[j]?)
  | [], r, j, _, _ => by simp
  | x :: xs, 0, j, h, hj => by
    have hx : x.length = w := h x (by simp)
    rw [List.flatten_cons, Nat.zero_mul, Nat.zero_add,
      List.getElem?_append_left (by omega)]
    simp
  | x :: xs, r + 1, j, h, hj => by
    have hx : x.length = w := h x (by simp)
    have ih := flatten_getElem?_uniform w xs r j
      (fun row hr => h row (by simp [hr])) hj
    rw [List.flatten_cons, Nat.succ_mul]
    have hidx : (r * w + w) + j = x.length + (r * w + j) := by omega
    rw [Nat.add_comm (r * w) w] at hidx ⊢
    rw [hidx, List.getElem?_append_right (by omega)]
    simp [ih]

theorem chunkRows_length (nb : Nat) :
    ∀ (bs : Nat) (d : List Int), (chunkRows nb bs d).length = bs
  | 0, _ => rfl
  | bs + 1, d => by simp [chunkRows, chunkRows_length nb bs]

theorem chunkRows_row_length (nb : Nat) :
    ∀ (bs : Nat) (d : List Int), bs * nb ≤ d.length →
      ∀ r ∈ chunkRows nb bs d, r.length = nb
  | 0, _, _ => by simp [chunkRows]
  | bs + 1, d, h => by
    intro r hr
    simp only [chunkRows, List.mem_cons] at hr
    rcases hr with hr | hr
    · subst hr
      have hm : (bs + 1) * nb = bs * nb + nb := by ring
      simp only [List.length_take]
      omega
    · refine chunkRows_row_length nb bs (d.drop nb) ?_ r hr
      have hm : (bs + 1) * nb = bs * nb + nb := by ring
      simp only [List.length_drop]
      omega

theorem chunkRows_flatten (nb : Nat) :
    ∀ (bs : Nat) (d : List Int), (chunkRows nb bs d).flatten = d.take (bs * nb)
  | 0, d => by simp [chunkRows]
  | bs + 1, d => by
    rw [chunkRows, List.flatten_cons, chunkRows_flatten nb bs,
      ← List.take_add, Nat.succ_mul, Nat.add_comm (bs * nb) nb]

theorem npTranspose_length (m : List (List Int)) (n : Nat)
    (hrect : ∀ row ∈ m, row.length = n) (hne : m ≠ []) :
    (npTranspose m).length = n := by
  match m, hne with
  | m0 :: rest, _ =>
    have : m0.length = n := hrect m0 (by simp)
    simp [npTranspose, this]

theorem npTranspose_getElem? (m : List (List Int)) (j : Nat)
    (hj : j < (m.headD []).length) :
    (npTranspose m)[j]? = some (m.map (fun row => row.getD j 0)) := by
  unfold npTranspose
  rw [List.getElem?_map, List.getElem?_range hj]
  rfl

theorem npTranspose_row_length (m : List (List Int)) (row : List Int)
    (hrow : row ∈ npTranspose m) : row.length = m.length := by
  simp only [npTranspose, List.mem_map, List.mem_range] at hrow
  obtain ⟨j, -, rfl⟩ := hrow
  simp

/-! Claim C2: shape and content of `batchify` before the optional
transpose. -/

/-- C2: for every token stream and every row count `bs > 0` (Python raises
a ZeroDivisionError for `bs = 0`), `LanguageModelLoader.batchify` produces
a matrix with exactly `bs` rows, each row of length `len // bs` (before
the optional transpose), and concatenating the rows in order, after
undoing the optional per-row reversal, reproduces exactly the prefix of
the stream of length `bs * (len // bs)`.  The function is a pure Lean
`def`, hence deterministic. -/
theorem batchify_rows_spec (bs : Nat) (backwards : Bool) (data : List Int)
    (hbs : 0 < bs) :
    (batchifyRows bs backwards data).length = bs ∧
    (∀ r ∈ batchifyRows bs backwards data, r.length = data.length / bs) ∧
    ((batchifyRows bs backwards data).map
        (fun r => if backwards then r.reverse else r)).flatten
      = data.take (bs * (data.length / bs)) := by
  have hle : data.length / bs * bs ≤ data.length := Nat.div_mul_le_self _ _
  have hcomm : bs * (data.length / bs) = data.length / bs * bs :=
    Nat.mul_comm _ _
  have hdlen : (data.take (data.length / bs * bs)).length
      = data.length / bs * bs := by
    simp only [List.length_take]
    omega
  refine ⟨?_, ?_, ?_⟩
  · unfold batchifyRows
    cases backwards <;> simp [chunkRows_length]
  · intro r hr
    unfold batchifyRows at hr
    cases backwards <;> simp only [if_true, if_false, Bool.false_eq_true,
      List.mem_map] at hr
    · exact chunkRows_row_length _ bs _ (by omega) r hr
    · obtain ⟨r0, hr0, rfl⟩ := hr
      rw [List.length_reverse]
      exact chunkRows_row_length _ bs _ (by omega) r0 hr0
  · unfold batchifyRows
    rw [hcomm]
    cases backwards
    · simp only [Bool.false_eq_true, if_false]
      rw [List.map_id', chunkRows_flatten, List.take_take, hcomm,
        Nat.min_self]
    · simp only [if_true, List.map_map]
      have hmm : List.map ((fun (r : List Int) => r.reverse) ∘ List.reverse)
          (chunkRows (data.length / bs) bs
            (data.take (data.length / bs * bs)))
          = chunkRows (data.length / bs) bs
              (data.take (data.length / bs * bs)) :=
        List.map_id'' (fun l => by simp) _
      rw [hmm, chunkRows_flatten, List.take_take, hcomm, Nat.min_self]

/-- Witness for `batchify_rows_spec` at `bs = 2`, `backwards = true`,
stream `[10, 11, 12, 13, 14]`. -/
theorem batchify_rows_spec_witness :
    (0 : Nat) < 2 ∧
    ((batchifyRows 2 true [10, 11, 12, 13, 14]).length = 2 ∧
     (∀ r ∈ batchifyRows 2 true [10, 11, 12, 13, 14],
        r.length = [10, 11, 12, 13, 14].length / 2) ∧
     ((batchifyRows 2 true [10, 11, 12, 13, 14]).map
         (fun r => if true then r.reverse else r)).flatten
       = [10, 11, 12, 13, 14].take (2 * ([10, 11, 12, 13, 14].length / 2))) :=
  ⟨by decide, batchify_rows_spec 2 true [10, 11, 12, 13, 14] (by decide)⟩

/-! Claim C8: `TextDataset.__getitem__` as the ordered composition of its
four per-example transformations. -/

/-- C8: for every dataset configuration and index, `TextDataset.__getitem__`
applies to `x[idx]`, in this order: truncation to `max_seq_len` when
positive (head kept when `cut_tail`, else tail), then optional reversal,
then optional append of the end sentinel, then optional prepend of the
start sentinel; the label `y[idx]` is returned unchanged alongside.  The
embedding is a pure function of the dataset and index, so no state is
mutated. -/
theorem textdataset_getitem_spec (ds : TextDatasetM) (idx : Nat) :
    ds.getitem idx =
      (sosStep ds.sos (eosStep ds.eos (revStep ds.backwards
          (truncStep ds.max_seq_len ds.cut_tail (ds.x.getD idx [])))),
       ds.y.getD idx 0) := by
  rfl

/-! Claims C3 and C10: the non-randomized iteration trace. -/

theorem pyLen_toNat (n bptt : Nat) : (pyLen n bptt).toNat = n / bptt - 1 := by
  unfold pyLen
  rw [← Int.ofNat_ediv]
  omega

theorem pyLen_lt_iff (n bptt iter : Nat) :
    ((iter : Int) < pyLen n bptt) ↔ iter < n / bptt - 1 := by
  unfold pyLen
  rw [← Int.ofNat_ediv]
  omega

/-- Closed form of the fixed-length iteration from state
`(i, iter) = (k * bptt, k)` with the remaining fuel: the loop yields one
batch at each multiple of `bptt` until the counter reaches
`n / bptt - 1`. -/
theorem lmIterAux_fixed_eq (bptt n : Nat) (hb : 0 < bptt) :
    ∀ (fuel k : Nat), fuel = n / bptt - 1 - k →
      lmIterAux (fun _ _ => bptt) n (pyLen n bptt) fuel (k * bptt) k
        = (List.range' k (n / bptt - 1 - k)).map (fun j => (j * bptt, bptt))
  | 0, k, hfuel => by
    rw [lmIterAux, ← hfuel]
    rfl
  | fuel + 1, k, hfuel => by
    have hq : n / bptt * bptt ≤ n := Nat.div_mul_le_self n bptt
    have hk2 : k + 2 ≤ n / bptt := by omega
    have hkb : (k + 2) * bptt ≤ n / bptt * bptt :=
      Nat.mul_le_mul_right bptt hk2
    have hexp : (k + 2) * bptt = k * bptt + 2 * bptt := by ring
    have hguard1 : k * bptt < n - 1 := by omega
    have hguard2 : (k : Int) < pyLen n bptt := by
      rw [pyLen_lt_iff]
      omega
    have hnobreak : ¬ k * bptt + bptt ≥ n := by omega
    rw [lmIterAux, if_pos ⟨hguard1, hguard2⟩, if_neg hnobreak]
    have hstep : k * bptt + bptt = (k + 1) * bptt := by ring
    rw [hstep, lmIterAux_fixed_eq bptt n hb fuel (k + 1) (by omega)]
    have hf2 : n / bptt - 1 - k = (n / bptt - 1 - (k + 1)) + 1 := by omega
    rw [hf2, List.range'_succ, List.map_cons]

/-- Closed form of the full fixed-mode trace. -/
theorem lmTraceFixed_eq (bptt n : Nat) (hb : 0 < bptt) :
    lmTraceFixed bptt n
      = (List.range' 0 (n / bptt - 1)).map (fun j => (j * bptt, bptt)) := by
  have h := lmIterAux_fixed_eq bptt n hb (n / bptt - 1) 0 (by omega)
  simp only [Nat.zero_mul, Nat.sub_zero] at h
  unfold lmTraceFixed
  rw [pyLen_toNat, h]

/-- C3: with `randomize_bptt = False`, the cursor positions at which
batches are extracted are exactly `0, bptt, 2*bptt, ...` (each batch `j`
is taken at cursor `j * bptt` with chunk length exactly `bptt`: the
cursor advances by the chunk length, no overlap, no skipped tokens), and
every yielded batch satisfies `i + bptt + 1 ≤ n`, so no batch (input rows
`[i, i+bptt)`, target rows up to `i + bptt`) reads past row `n - 1`. -/
theorem lm_iter_fixed_cursors (bptt n : Nat) (hb : 0 < bptt) :
    lmTraceFixed bptt n
      = (List.range (n / bptt - 1)).map (fun j => (j * bptt, bptt)) ∧
    ∀ p ∈ lmTraceFixed bptt n, p.1 + p.2 + 1 ≤ n := by
  have htr := lmTraceFixed_eq bptt n hb
  constructor
  · rw [htr, List.range_eq_range']
  · intro p hp
    rw [htr] at hp
    simp only [List.mem_map, List.mem_range'_1, Nat.zero_add] at hp
    obtain ⟨j, hj, rfl⟩ := hp
    have hq : n / bptt * bptt ≤ n := Nat.div_mul_le_self n bptt
    have hkb : (j + 2) * bptt ≤ n / bptt * bptt :=
      Nat.mul_le_mul_right bptt (by omega)
    have hexp : (j + 2) * bptt = j * bptt + 2 * bptt := by ring
    simp only
    omega

/-- Witness for `lm_iter_fixed_cursors` at `bptt = 5`, `n = 23`. -/
theorem lm_iter_fixed_cursors_witness :
    (0 : Nat) < 5 ∧
    (lmTraceFixed 5 23
        = (List.range (23 / 5 - 1)).map (fun j => (j * 5, 5)) ∧
     ∀ p ∈ lmTraceFixed 5 23, p.1 + p.2 + 1 ≤ 23) :=
  ⟨by decide, lm_iter_fixed_cursors 5 23 (by decide)⟩

/-- When `__len__` is nonnegative, the full pass never raises and its
yielded list is exactly the `lmIterAux` trace: the fuel invariant
`lenI.toNat ≤ fuel + iter` holds at every reachable state, so the extra
unit of fuel of `lmIterAuxE` is never consumed past a failing guard. -/
theorem lmIterAuxE_eq_ok (f : Nat → Nat → Nat) (n : Nat) (lenI : Int)
    (hlen : 0 ≤ lenI) :
    ∀ (fuel iter i : Nat), lenI.toNat ≤ fuel + iter →
      lmIterAuxE f n lenI (fuel + 1) i iter
        = Except.ok (lmIterAux f n lenI fuel i iter)
  | 0, iter, i, hf => by
    rw [lmIterAuxE, lmIterAux]
    by_cases h1 : i < n - 1
    · rw [if_pos h1, if_neg (by omega : ¬ lenI < 0),
        if_neg (by omega : ¬ (iter : Int) < lenI)]
    · rw [if_neg h1]
  | fuel + 1, iter, i, hf => by
    rw [lmIterAuxE, lmIterAux]
    by_cases h1 : i < n - 1
    · by_cases h2 : (iter : Int) < lenI
      · rw [if_pos h1, if_neg (by omega : ¬ lenI < 0), if_pos h2,
          if_pos (And.intro h1 h2)]
        by_cases h3 : i + f i iter ≥ n
        · rw [if_pos h3, if_pos h3]
        · rw [if_neg h3, if_neg h3, lmIterAuxE_eq_ok f n lenI hlen fuel
            (iter + 1) (i + f i iter) (by omega)]
      · rw [if_pos h1, if_neg (by omega : ¬ lenI < 0), if_neg h2,
          if_neg (by simp [h2] : ¬ (i < n - 1 ∧ (iter : Int) < lenI))]
    · rw [if_neg h1,
        if_neg (by simp [h1] : ¬ (i < n - 1 ∧ (iter : Int) < lenI))]

/-- Amended C10: with `randomize_bptt = False` and `bptt > 0`, a complete
iteration pass terminates normally and yields exactly
`max(0, n // bptt - 1)` batches whenever `n ≥ bptt` (advisory `__len__`
nonnegative and exact) or `n ≤ 1` (the guard's left conjunct is false
before `len(self)` is ever evaluated, zero batches); but for
`2 ≤ n < bptt` the advisory `__len__` is `-1` and the first `next()`
raises `ValueError: __len__() should return >= 0` after yielding nothing,
rather than ending as a silently exhausted pass. -/
theorem lm_pass_fixed_count (bptt n : Nat) (hb : 0 < bptt) :
    (bptt ≤ n ∨ n ≤ 1 →
      lmPassFixed bptt n = Except.ok (lmTraceFixed bptt n) ∧
      (lmTraceFixed bptt n).length = n / bptt - 1) ∧
    (2 ≤ n ∧ n < bptt →
      lmPassFixed bptt n
        = Except.error "ValueError: __len__() should return >= 0") := by
  have hcnt : (lmTraceFixed bptt n).length = n / bptt - 1 := by
    rw [lmTraceFixed_eq bptt n hb]
    simp
  constructor
  · intro hok
    refine ⟨?_, hcnt⟩
    rcases hok with h | h
    · have hq : 1 ≤ n / bptt := (Nat.one_le_div_iff hb).mpr h
      have hlen : 0 ≤ pyLen n bptt := by
        unfold pyLen
        rw [← Int.ofNat_ediv]
        omega
      exact lmIterAuxE_eq_ok (fun _ _ => bptt) n (pyLen n bptt) hlen
        (pyLen n bptt).toNat 0 0 (by omega)
    · have hg : ¬ (0 < n - 1) := by omega
      unfold lmPassFixed lmTraceFixed
      rw [lmIterAuxE, if_neg hg]
      have h0 : (pyLen n bptt).toNat = 0 := by
        have hq : n / bptt ≤ n := Nat.div_le_self n bptt
        unfold pyLen
        rw [← Int.ofNat_ediv]
        omega
      rw [h0, lmIterAux]
  · intro h2
    have hq : n / bptt = 0 := Nat.div_eq_of_lt h2.2
    have hlen : pyLen n bptt = -1 := by
      unfold pyLen
      rw [← Int.ofNat_ediv, hq]
      rfl
    unfold lmPassFixed
    rw [hlen]
    show lmIterAuxE (fun _ _ => bptt) n (-1) (0 + 1) 0 0 = _
    rw [lmIterAuxE, if_pos (by omega : 0 < n - 1), if_pos (by decide)]

/-- Witness for `lm_pass_fixed_count`: the normal case at `bptt = 5`,
`n = 23` (three yielded batches) and the raising case at `bptt = 5`,
`n = 3`. -/
theorem lm_pass_fixed_count_witness :
    (0 : Nat) < 5 ∧
    (lmPassFixed 5 23 = Except.ok (lmTraceFixed 5 23) ∧
     (lmTraceFixed 5 23).length = 23 / 5 - 1) ∧
    lmPassFixed 5 3
      = Except.error "ValueError: __len__() should return >= 0" :=
  ⟨by decide,
   (lm_pass_fixed_count 5 23 (by decide)).1 (Or.inl (by decide)),
   (lm_pass_fixed_count 5 3 (by decide)).2 (by decide)⟩

/-- Counterexample to C10 as stated: at `n = 3`, `bptt = 5` (so
`n ≤ bptt`, where the claim asserts the pass silently yields
`max(0, 3 // 5 - 1) = 0` batches), the guard's left conjunct `0 < n - 1`
is true, `len(self)` is evaluated, `__len__` returns `3 // 5 - 1 = -1`,
and CPython raises `ValueError: __len__() should return >= 0` on the
first `next()` — the pass raises instead of yielding nothing and
stopping. -/
theorem lm_pass_fixed_raises :
    lmPassFixed 5 3
      = Except.error "ValueError: __len__() should return >= 0" := rfl

/-! Claim C4: chunk lengths in randomized mode. -/

theorem randSeqLen_bounds (bptt : Nat) (d : Int) :
    5 ≤ randSeqLen bptt d ∧ randSeqLen bptt d ≤ bptt + 25 := by
  unfold randSeqLen
  omega

/-- Every `(cursor, seq_len)` entry of the iterator loop satisfies any
property that the chunk-length policy guarantees pointwise. -/
theorem lmIterAux_entries (f : Nat → Nat → Nat) (n : Nat) (lenI : Int)
    (P : Nat → Nat → Prop) (hP : ∀ i iter, P i (f i iter)) :
    ∀ (fuel i iter : Nat) (p : Nat × Nat),
      p ∈ lmIterAux f n lenI fuel i iter → P p.1 p.2
  | 0, _, _, _, hp => by simp [lmIterAux] at hp
  | fuel + 1, i, iter, p, hp => by
    rw [lmIterAux] at hp
    by_cases hg : i < n - 1 ∧ (iter : Int) < lenI
    · rw [if_pos hg] at hp
      by_cases hbr : i + f i iter ≥ n
      · rw [if_pos hbr] at hp
        simp at hp
      · rw [if_neg hbr] at hp
        rcases List.mem_cons.mp hp with rfl | hp
        · exact hP i iter
        · exact lmIterAux_entries f n lenI P hP fuel _ _ p hp
    · rw [if_neg hg] at hp
      simp at hp

/-- C4: with `randomize_bptt = True`, for all outcomes of the random
draws, the chunk extracted at cursor `0` (the first chunk) has length
exactly `bptt + 25`, and every chunk extracted at a nonzero cursor (every
subsequent chunk) has length in the closed interval `[5, bptt + 25]` —
the clamp `max(5, min(_, bptt + 25))` never raises. -/
theorem lm_iter_rand_chunk_bounds (bptt n : Nat) (draws : Nat → Int)
    (p : Nat × Nat) (hp : p ∈ lmTraceRand bptt n draws) :
    (p.1 = 0 → p.2 = bptt + 25) ∧
    (p.1 ≠ 0 → 5 ≤ p.2 ∧ p.2 ≤ bptt + 25) := by
  refine lmIterAux_entries (lmRandSeqLen bptt draws) n (pyLen n bptt)
    (fun i s => (i = 0 → s = bptt + 25) ∧ (i ≠ 0 → 5 ≤ s ∧ s ≤ bptt + 25))
    ?_ _ 0 0 p hp
  intro i iter
  unfold lmRandSeqLen
  constructor
  · intro h
    simp [h]
  · intro h
    rw [if_neg h]
    exact randSeqLen_bounds bptt (draws iter)

/-- Witness for `lm_iter_rand_chunk_bounds`: with `bptt = 1`, `n = 40` and
all normal draws equal to `3`, the trace is `[(0, 26), (26, 5), (31, 5)]`;
instantiate at the first and second entries. -/
theorem lm_iter_rand_chunk_bounds_witness :
    ((0, 26) ∈ lmTraceRand 1 40 (fun _ => 3) ∧
     (((0, 26) : Nat × Nat).1 = 0 → ((0, 26) : Nat × Nat).2 = 1 + 25)) ∧
    ((26, 5) ∈ lmTraceRand 1 40 (fun _ => 3) ∧
     (((26, 5) : Nat × Nat).1 ≠ 0 →
        5 ≤ ((26, 5) : Nat × Nat).2 ∧ ((26, 5) : Nat × Nat).2 ≤ 1 + 25)) :=
  ⟨⟨by decide,
    (lm_iter_rand_chunk_bounds 1 40 (fun _ => 3) (0, 26) (by decide)).1⟩,
   ⟨by decide,
    (lm_iter_rand_chunk_bounds 1 40 (fun _ => 3) (26, 5) (by decide)).2⟩⟩

/-! Claim C9: the shuffled loader yields `len()` batches, all in bounds. -/

/-- C9: for every `ShuffledLanguageModelLoader` with
`n > max_possible_seq_len + 1` and `bptt > 0`, one iteration pass yields
exactly `n // bptt - 1` batches; every batch start offset drawn by
`random.randint(0, n - max_possible_seq_len - 1)` keeps both the input
slice `[i, i + seq_len)` and the target slice `[i + 1 + off, i + 1 + seq_len)`
inside the `n` rows of the matrix, for all outcomes of the draws.  Each
trace entry is a function of its own step index alone, so no cursor state
is carried between batches. -/
theorem shuffled_iter_spec (randomize_bptt : Bool) (bptt n : Nat)
    (offs : Nat → Nat) (draws : Nat → Int) (hb : 0 < bptt)
    (hn : max_possible_seq_len randomize_bptt bptt + 1 < n)
    (hoffs : ∀ k, offs k ≤ n - max_possible_seq_len randomize_bptt bptt - 1) :
    (shuffledTrace randomize_bptt bptt n offs draws).length = n / bptt - 1 ∧
    ∀ p ∈ shuffledTrace randomize_bptt bptt n offs draws,
      p.1 ≤ n - max_possible_seq_len randomize_bptt bptt - 1 ∧
      p.1 + p.2 ≤ n ∧ p.1 + 1 + p.2 ≤ n := by
  constructor
  · unfold shuffledTrace
    simp
  · intro p hp
    unfold shuffledTrace at hp
    simp only [List.mem_map, List.mem_range] at hp
    obtain ⟨step, -, rfl⟩ := hp
    have hs : (if randomize_bptt then
          if step = 0 then bptt + 5 * 5 else randSeqLen bptt (draws step)
        else bptt) ≤ max_possible_seq_len randomize_bptt bptt := by
      unfold max_possible_seq_len
      cases randomize_bptt
      · simp
      · simp only [if_true]
        by_cases h0 : step = 0
        · simp [h0]
        · rw [if_neg h0]
          have := (randSeqLen_bounds bptt (draws step)).2
          omega
    have ho := hoffs step
    refine ⟨ho, ?_, ?_⟩ <;> simp only <;> omega

/-- Witness for `shuffled_iter_spec` at `randomize_bptt = true`,
`bptt = 2`, `n = 30`, all offsets `1`, all draws `100`. -/
theorem shuffled_iter_spec_witness :
    (0 : Nat) < 2 ∧ max_possible_seq_len true 2 + 1 < 30 ∧
    ((shuffledTrace true 2 30 (fun _ => 1) (fun _ => 100)).length
        = 30 / 2 - 1 ∧
     ∀ p ∈ shuffledTrace true 2 30 (fun _ => 1) (fun _ => 100),
       p.1 ≤ 30 - max_possible_seq_len true 2 - 1 ∧
       p.1 + p.2 ≤ 30 ∧ p.1 + 1 + p.2 ≤ 30) :=
  ⟨by decide, by decide,
   shuffled_iter_spec true 2 30 (fun _ => 1) (fun _ => 100) (by decide)
     (by decide) (fun k => by
       show (1 : Nat) ≤ 30 - max_possible_seq_len true 2 - 1
       decide)⟩

/-! Claim C5: degenerate configuration (stream shorter than `bs`). -/

theorem npTranspose_length_eq (m : List (List Int)) :
    (npTranspose m).length = (m.headD []).length := by
  simp [npTranspose]

/-- No NumPy call inside `batchify` raises for `bs > 0`: the truncated
stream length `(len // bs) * bs` is divisible by `bs`, so `reshape(bs, -1)`
succeeds (even when the truncated stream is empty, in which case the
result has shape `(bs, 0)`). -/
theorem batchifyE_ok (bs : Nat) (backwards batch_first : Bool)
    (data : List Int) (hbs : 0 < bs) :
    batchifyE bs backwards batch_first data
      = Except.ok (batchify bs backwards batch_first data) := by
  have hbs0 : ¬ bs = 0 := by omega
  have hle := Nat.div_mul_le_self data.length bs
  have hlen : (data.take (data.length / bs * bs)).length
      = data.length / bs * bs := by
    simp only [List.length_take]
    omega
  have hmod : ¬ ((data.take (data.length / bs * bs)).length % bs ≠ 0) := by
    rw [hlen]
    simp [Nat.mul_mod_left]
  have hcancel : (data.take (data.length / bs * bs)).length / bs
      = data.length / bs := by
    rw [hlen]
    exact Nat.mul_div_cancel _ hbs
  unfold batchifyE npReshapeRows
  simp only [if_neg hbs0, if_neg hmod, hcancel]
  rfl

theorem batchifyRows_row_zero (bs : Nat) (backwards : Bool)
    (data : List Int) (hshort : data.length < bs) :
    ∀ r ∈ batchifyRows bs backwards data, r.length = 0 := by
  intro r hr
  have hnb : data.length / bs = 0 := Nat.div_eq_of_lt hshort
  unfold batchifyRows at hr
  rw [hnb] at hr
  cases backwards <;> simp only [if_true, if_false, Bool.false_eq_true,
    List.mem_map] at hr
  · exact chunkRows_row_length 0 bs _ (by omega) r hr
  · obtain ⟨r0, hr0, rfl⟩ := hr
    rw [List.length_reverse]
    exact chunkRows_row_length 0 bs _ (by omega) r0 hr0

theorem lmTraceFixed_zero (bptt : Nat) : lmTraceFixed bptt 0 = [] := by
  unfold lmTraceFixed
  have h : pyLen 0 bptt = -1 := by
    unfold pyLen
    simp
  rw [h]
  rfl

/-- Amended C5: with a stream too short to fill even one column per
stream (`len < bs`, zero usable rows), constructing the loader does NOT
raise: `batchify` succeeds (NumPy reshapes the empty truncated stream to
shape `(bs, 0)`), the stored `n` is `0`, and an iteration pass silently
yields zero batches — a silent empty iterator, not a construction-time
configuration error. -/
theorem batchify_degenerate_silent (bs bptt : Nat)
    (backwards batch_first : Bool) (data : List Int)
    (hbs : 0 < bs) (hshort : data.length < bs) :
    batchifyE bs backwards batch_first data
      = Except.ok (batchify bs backwards batch_first data) ∧
    nOf batch_first (batchify bs backwards batch_first data) = 0 ∧
    lmTraceFixed bptt
      (nOf batch_first (batchify bs backwards batch_first data)) = [] := by
  have hrows0 := batchifyRows_row_zero bs backwards data hshort
  have hlen : (batchifyRows bs backwards data).length = bs := by
    unfold batchifyRows
    cases backwards <;> simp [chunkRows_length]
  have hn : nOf batch_first (batchify bs backwards batch_first data) = 0 := by
    unfold nOf batchify
    cases batch_first
    · simp only [Bool.false_eq_true, if_false]
      rw [npTranspose_length_eq]
      match hm : batchifyRows bs backwards data with
      | [] => simp
      | r0 :: rest =>
        have := hrows0 r0 (by rw [hm]; simp)
        simpa using this
    · simp only [if_true]
      match hm : batchifyRows bs backwards data with
      | [] => simp
      | r0 :: rest =>
        have := hrows0 r0 (by rw [hm]; simp)
        simpa using this
  exact ⟨batchifyE_ok bs backwards batch_first data hbs, hn,
    by rw [hn]; exact lmTraceFixed_zero bptt⟩

/-- Witness for `batchify_degenerate_silent` at `bs = 5`, stream
`[1, 2, 3]`. -/
theorem batchify_degenerate_silent_witness :
    (0 : Nat) < 5 ∧ ([1, 2, 3] : List Int).length < 5 ∧
    (batchifyE 5 false true [1, 2, 3]
        = Except.ok (batchify 5 false true [1, 2, 3]) ∧
     nOf true (batchify 5 false true [1, 2, 3]) = 0 ∧
     lmTraceFixed 2 (nOf true (batchify 5 false true [1, 2, 3])) = []) :=
  ⟨by decide, by decide,
   batchify_degenerate_silent 5 2 false true [1, 2, 3] (by decide) (by decide)⟩

/-- Counterexample to C5 as stated: for the degenerate configuration
`bs = 5`, stream `[1, 2, 3]` (zero usable rows), construction raises no
error — `batchify` returns the `(5, 0)` matrix `[[], [], [], [], []]` —
and the iteration pass is silently empty. -/
theorem batchify_degenerate_no_error :
    batchifyE 5 false true [1, 2, 3]
        = Except.ok [[], [], [], [], []] ∧
    lmTraceFixed 2 (nOf true [[], [], [], [], []]) = [] :=
  ⟨rfl, rfl⟩

/-! Claims C6 and C7: `jag_stack`. -/

theorem foldl_min_le_init :
    ∀ (l : List (List Int)) (a : Nat),
      l.foldl (fun m o => min m o.length) a ≤ a
  | [], _ => Nat.le_refl _
  | x :: xs, a =>
    Nat.le_trans (foldl_min_le_init xs (min a x.length)) (Nat.min_le_left _ _)

theorem foldl_min_le_mem :
    ∀ (l : List (List Int)) (a : Nat) (o : List Int), o ∈ l →
      l.foldl (fun m o => min m o.length) a ≤ o.length
  | x :: xs, a, o, h => by
    rcases List.mem_cons.mp h with rfl | h
    · exact Nat.le_trans (foldl_min_le_init xs (min a o.length))
        (Nat.min_le_right _ _)
    · exact foldl_min_le_mem xs (min a x.length) o h

theorem foldl_min_const :
    ∀ (l : List (List Int)) (c : Nat), (∀ o ∈ l, o.length = c) →
      l.foldl (fun m o => min m o.length) c = c
  | [], _, _ => rfl
  | x :: xs, c, h => by
    have hx : x.length = c := h x (by simp)
    have := foldl_min_const xs c (fun o ho => h o (by simp [ho]))
    simpa [hx] using this

theorem foldl_min_le_cons (b0 : List Int) (rest : List (List Int))
    (o : List Int) (ho : o ∈ b0 :: rest) :
    rest.foldl (fun m o => min m o.length) b0.length ≤ o.length := by
  rcases List.mem_cons.mp ho with h | h
  · rw [h]
    exact foldl_min_le_init rest b0.length
  · exact foldl_min_le_mem rest b0.length o h

/-- A 1-D example strictly longer than a positive `ml` makes the NumPy
slice assignment fail: the slice has length `ml` (negative start clamps
to `0`) but the value has length `> ml ≥ 1`, which neither matches nor is
the broadcastable length `1`. -/
theorem pyAssign_overlong (pre_pad : Bool) (ml : Nat) (pad : Int)
    (o : List Int) (hml : 1 ≤ ml) (ho : ml < o.length) :
    pyAssign pre_pad ml pad o = Except.error "could not broadcast input array" := by
  unfold pyAssign
  have hk0 : ¬ o.length = 0 := by omega
  have hk1 : ¬ o.length = 1 := by omega
  cases pre_pad
  · simp only [Bool.false_eq_true, if_false]
    rw [if_neg (by omega : ¬ o.length = min o.length ml - 0), if_neg hk1]
  · simp only [if_true]
    rw [if_neg hk0, if_neg (by omega : ¬ o.length = ml - (ml - o.length)),
      if_neg hk1]

/-- A 1-D example of length between `1` and `ml` is padded exactly:
`pad`-filled positions before (pre-pad) or after (post-pad) the copied
values. -/
theorem pyAssign_pads (pre_pad : Bool) (ml : Nat) (pad : Int)
    (o : List Int) (h1 : 1 ≤ o.length) (h2 : o.length ≤ ml) :
    pyAssign pre_pad ml pad o
      = Except.ok (if pre_pad then List.replicate (ml - o.length) pad ++ o
          else o ++ List.replicate (ml - o.length) pad) := by
  unfold pyAssign
  have hk0 : ¬ o.length = 0 := by omega
  cases pre_pad
  · simp only [Bool.false_eq_true, if_false]
    rw [if_pos (by omega : o.length = min o.length ml - 0)]
    rw [List.take_replicate, List.drop_replicate]
    simp [Nat.min_eq_left h2]
  · simp only [if_true]
    rw [if_neg hk0, if_pos (by omega : o.length = ml - (ml - o.length))]
    rw [List.take_replicate, List.drop_replicate]
    simp [Nat.min_eq_left (by omega : ml - o.length ≤ ml), Nat.sub_self]

theorem jagLoop_error (pre_pad : Bool) (ml : Nat) (pad : Int) :
    ∀ (l : List (List Int)),
      (∃ o ∈ l, pyAssign pre_pad ml pad o
          = Except.error "could not broadcast input array") →
      ∃ msg, jagLoop pre_pad ml pad l = Except.error msg
  | [], h => by simp at h
  | x :: xs, h => by
    rw [jagLoop]
    match hx : pyAssign pre_pad ml pad x with
    | .error e => exact ⟨e, rfl⟩
    | .ok row =>
      obtain ⟨o, ho, herr⟩ := h
      rcases List.mem_cons.mp ho with rfl | ho
      · rw [hx] at herr
        exact absurd herr (by simp)
      · obtain ⟨msg, hmsg⟩ := jagLoop_error pre_pad ml pad xs ⟨o, ho, herr⟩
        rw [hmsg]
        exact ⟨msg, rfl⟩

theorem jagLoop_pads (pre_pad : Bool) (ml : Nat) (pad : Int) :
    ∀ (l : List (List Int)), (∀ o ∈ l, 1 ≤ o.length ∧ o.length ≤ ml) →
      jagLoop pre_pad ml pad l
        = Except.ok (l.map (fun o =>
            if pre_pad then List.replicate (ml - o.length) pad ++ o
            else o ++ List.replicate (ml - o.length) pad))
  | [], _ => rfl
  | x :: xs, h => by
    have hx := h x (by simp)
    rw [jagLoop, pyAssign_pads pre_pad ml pad x hx.1 hx.2,
      jagLoop_pads pre_pad ml pad xs (fun o ho => h o (by simp [ho]))]
    simp

/-- Amended C6: for `seq_length ≥ 1`, every batch containing a 1-D
example strictly longer than `seq_length` makes `jag_stack` raise a NumPy
shape error (a broadcast failure in the padding loop, or a shape mismatch
in `np.stack` on the fast path) — a generic ValueError, not a dedicated
`PaddingContractViolation` — and no silently truncated output matrix is
ever produced.  (For `seq_length = 0` a length-1 example is instead
silently dropped by NumPy length-1 broadcasting.) -/
theorem jag_stack_overlong_errors (ml : Nat) (pad : Int) (pre_pad : Bool)
    (b : List (List Int)) (hml : 1 ≤ ml)
    (hlong : ∃ o ∈ b, ml < o.length) :
    ∃ msg, jag_stack ml pad pre_pad b = Except.error msg := by
  obtain ⟨o, ho, holen⟩ := hlong
  match b, ho with
  | b0 :: rest, ho =>
    have hred : jag_stack ml pad pre_pad (b0 :: rest)
        = (if rest.foldl (fun m o => min m o.length) b0.length = ml
            then npStack (b0 :: rest)
            else jagLoop pre_pad ml pad (b0 :: rest)) := rfl
    rw [hred]
    by_cases hmin : rest.foldl (fun m o => min m o.length) b0.length = ml
    · rw [if_pos hmin]
      have hstk : npStack (b0 :: rest)
          = (if (b0 :: rest).all (fun o => o.length = b0.length)
              then Except.ok (b0 :: rest)
              else Except.error "all input arrays must have the same shape") :=
        rfl
      rw [hstk, if_neg ?hne]
      · exact ⟨_, rfl⟩
      case hne =>
        intro hall
        rw [List.all_eq_true] at hall
        have hob : o.length = b0.length := by
          have := hall o (by simpa using ho)
          simpa using this
        have hconst : rest.foldl (fun m o => min m o.length) b0.length
            = b0.length := by
          refine foldl_min_const rest b0.length (fun r hr => ?_)
          have := hall r (by simp [hr])
          simpa using this
        omega
    · rw [if_neg hmin]
      exact jagLoop_error pre_pad ml pad (b0 :: rest)
        ⟨o, ho, pyAssign_overlong pre_pad ml pad o hml holen⟩

/-- Witness for `jag_stack_overlong_errors` at `seq_length = 2`,
batch `[[7, 8, 9], [1]]` (first example longer than 2). -/
theorem jag_stack_overlong_errors_witness :
    (1 : Nat) ≤ 2 ∧ (∃ o ∈ [[7, 8, 9], [1]], 2 < List.length o) ∧
    ∃ msg, jag_stack 2 0 true [[7, 8, 9], [1]] = Except.error msg :=
  ⟨by decide, ⟨[7, 8, 9], by simp⟩,
   jag_stack_overlong_errors 2 0 true [[7, 8, 9], [1]] (by decide)
     ⟨[7, 8, 9], by simp⟩⟩

/-- Counterexample to C6 as stated (quantifying over every configured
`seq_length`): with `seq_length = 0` and the batch `[[5]]` (whose single
example is strictly longer than `seq_length`), `jag_stack` does not fail:
NumPy broadcasts the length-1 value onto the empty slice of the `(1, 0)`
result matrix, silently dropping the example and returning the matrix
`[[]]`. -/
theorem jag_stack_overlong_silent_drop :
    jag_stack 0 0 true [[5]] = Except.ok [[]] := rfl

/-- Amended C7: for every nonempty batch of 1-D examples whose lengths
all lie in `[1, seq_length]` (the source raises on an empty example with
pre-padding): if every example's
length equals `seq_length`, `jag_stack` returns the direct stack of the
examples (no pad values introduced); in all cases each output row is the
example preceded (pre-pad) or followed (post-pad) by `pad_idx` fill. -/
theorem jag_stack_pads (ml : Nat) (pad : Int) (pre_pad : Bool)
    (b : List (List Int)) (hne : b ≠ [])
    (hlen : ∀ o ∈ b, 1 ≤ o.length ∧ o.length ≤ ml) :
    jag_stack ml pad pre_pad b
      = Except.ok (b.map (fun o =>
          if pre_pad then List.replicate (ml - o.length) pad ++ o
          else o ++ List.replicate (ml - o.length) pad)) ∧
    ((∀ o ∈ b, o.length = ml) → jag_stack ml pad pre_pad b = Except.ok b) := by
  match b, hne with
  | b0 :: rest, _ =>
    have hred : jag_stack ml pad pre_pad (b0 :: rest)
        = (if rest.foldl (fun m o => min m o.length) b0.length = ml
            then npStack (b0 :: rest)
            else jagLoop pre_pad ml pad (b0 :: rest)) := rfl
    constructor
    · rw [hred]
      by_cases hmin : rest.foldl (fun m o => min m o.length) b0.length = ml
      · rw [if_pos hmin]
        have hall : ∀ o ∈ b0 :: rest, o.length = ml := by
          intro o ho
          have hle := (hlen o ho).2
          have hge : ml ≤ o.length := by
            calc ml = rest.foldl (fun m o => min m o.length) b0.length :=
                  hmin.symm
              _ ≤ o.length := foldl_min_le_cons b0 rest o ho
          omega
        have hstk : npStack (b0 :: rest)
            = (if (b0 :: rest).all (fun o => o.length = b0.length)
                then Except.ok (b0 :: rest)
                else Except.error "all input arrays must have the same shape") :=
          rfl
        rw [hstk, if_pos ?hall2]
        case hall2 =>
          rw [List.all_eq_true]
          intro r hr
          have h1 := hall r hr
          have h2 := hall b0 (by simp)
          simp only [decide_eq_true_eq]
          omega
        have hmap : (b0 :: rest).map (fun o =>
            if pre_pad then List.replicate (ml - o.length) pad ++ o
            else o ++ List.replicate (ml - o.length) pad) = b0 :: rest := by
          have := List.map_congr_left (l := b0 :: rest)
            (f := fun o => if pre_pad then
                List.replicate (ml - o.length) pad ++ o
              else o ++ List.replicate (ml - o.length) pad)
            (g := fun o => o)
            (fun o ho => by
              show (if pre_pad then List.replicate (ml - o.length) pad ++ o
                  else o ++ List.replicate (ml - o.length) pad) = o
              rw [hall o ho, Nat.sub_self]
              cases pre_pad <;> simp)
          rw [this, List.map_id']
        rw [hmap]
      · rw [if_neg hmin]
        exact jagLoop_pads pre_pad ml pad (b0 :: rest) hlen
    · intro hall
      rw [hred]
      have hmin : rest.foldl (fun m o => min m o.length) b0.length = ml := by
        have hb0 : b0.length = ml := hall b0 (by simp)
        rw [hb0]
        exact foldl_min_const rest ml (fun o ho => hall o (by simp [ho]))
      rw [if_pos hmin]
      have hstk : npStack (b0 :: rest)
          = (if (b0 :: rest).all (fun o => o.length = b0.length)
              then Except.ok (b0 :: rest)
              else Except.error "all input arrays must have the same shape") :=
        rfl
      rw [hstk, if_pos ?hall3]
      case hall3 =>
        rw [List.all_eq_true]
        intro r hr
        have h1 := hall r hr
        have h2 := hall b0 (by simp)
        simp only [decide_eq_true_eq]
        omega

/-- Witness for `jag_stack_pads` at `seq_length = 3`, `pad_idx = 9`,
pre-padding, batch `[[1, 2], [4, 5, 6]]`. -/
theorem jag_stack_pads_witness :
    ([[1, 2], [4, 5, 6]] : List (List Int)) ≠ [] ∧
    (∀ o ∈ ([[1, 2], [4, 5, 6]] : List (List Int)),
      1 ≤ o.length ∧ o.length ≤ 3) ∧
    (jag_stack 3 9 true [[1, 2], [4, 5, 6]]
        = Except.ok ([[1, 2], [4, 5, 6]].map (fun o =>
            if true then List.replicate (3 - o.length) 9 ++ o
            else o ++ List.replicate (3 - o.length) 9)) ∧
     ((∀ o ∈ ([[1, 2], [4, 5, 6]] : List (List Int)), o.length = 3) →
        jag_stack 3 9 true [[1, 2], [4, 5, 6]]
          = Except.ok [[1, 2], [4, 5, 6]])) :=
  ⟨by decide, by decide,
   jag_stack_pads 3 9 true [[1, 2], [4, 5, 6]] (by decide) (by decide)⟩

/-- Counterexample to C7 as stated (quantifying over every batch of
examples of length at most `seq_length`): with `seq_length = 2`,
`pad_idx = 0`, pre-padding and the batch `[[], [1]]` (an empty example is
allowed by the claim, which predicts the all-pad row `[0, 0]`),
`jag_stack` does not return the padded matrix `[[0, 0], [0, 1]]`: the
NumPy assignment `res[0, -0:] = o` targets the whole row (Python `-0` is
`0`), and broadcasting a length-0 value onto the length-2 slice raises. -/
theorem jag_stack_empty_example_error :
    jag_stack 2 0 true [[], [1]] ≠ Except.ok [[0, 0], [0, 1]] := by
  intro h
  have h2 : (Except.error "could not broadcast input array" :
      Except String (List (List Int))) = Except.ok [[0, 0], [0, 1]] := h
  exact Except.noConfusion h2

/-! Claim C1: `get_batch` extracts exactly the stream columns
`[i, i+seq_len)` (input) and `[i+1+off, i+1+seq_len)` (flattened target)
of the BatchMatrix, in both orientations. -/

/-- Entry `(r, c)` of a 2-D token matrix (`0` outside the matrix). -/
def elemAt (m : List (List Int)) (r c : Nat) : Int :=
  (m.getD r []).getD c 0

theorem map_slice_getD (BM : List (List Int)) (a b r j : Nat)
    (hr : r < BM.length) (hj : j < b - a) :
    ((BM.map (fun row => listSlice row a b)).getD r []).getD j 0
      = (BM.getD r []).getD (a + j) 0 := by
  simp only [listSlice, List.getD_eq_getElem?_getD, List.getElem?_map,
    List.getElem?_eq_getElem hr, Option.map_some', Option.getD_some]
  rw [slice_getElem?, if_pos hj]

/-- C1: for every rectangular BatchMatrix `BM` (rows = batch streams,
columns = stream positions, row length `n`), every `batch_first` flag and
every in-bounds window (`i + 1 + seq_len ≤ n`), `get_batch i seq_len` on
the stored tensor (`BM` itself when `batch_first`, else its transpose)
returns as input exactly the contiguous columns `[i, i+seq_len)` of `BM`
(shape and entries), and as target the flattened columns
`[i+1+off, i+1+seq_len)` with `off = seq_len - target_length` (truncated):
the target has `min seq_len target_length ≤ target_length` positions per
stream, and target entry `(r, j)` is `BM[r][(i + off + j) + 1]` — the
token one position ahead of position `i + off + j` in the tail of the
input window. -/
theorem get_batch_spec (batch_first : Bool) (target_length : Nat)
    (BM : List (List Int)) (n : Nat) (hne : BM ≠ [])
    (hrect : ∀ row ∈ BM, row.length = n) (i s : Nat)
    (hb : i + 1 + s ≤ n) :
    ∀ res, res = get_batch batch_first target_length
        (if batch_first then BM else npTranspose BM) i s →
      min s target_length ≤ target_length ∧
      (if batch_first
        then res.1.length = BM.length ∧ ∀ row ∈ res.1, row.length = s
        else res.1.length = s ∧ ∀ row ∈ res.1, row.length = BM.length) ∧
      (∀ r, r < BM.length → ∀ j, j < s →
        (if batch_first then elemAt res.1 r j else elemAt res.1 j r)
          = elemAt BM r (i + j)) ∧
      res.2.length = BM.length * min s target_length ∧
      (∀ r, r < BM.length → ∀ j, j < min s target_length →
        res.2.getD
            (if batch_first then r * min s target_length + j
             else j * BM.length + r) 0
          = elemAt BM r (i + (s - target_length) + j + 1)) := by
  intro res hres
  have hwin : i + s ≤ n := by omega
  have hoff : s - (s - target_length) = min s target_length := by omega
  have hoffle : s - target_length ≤ s := by omega
  cases batch_first
  · -- batch_first = False: the stored tensor is the transpose of `BM`.
    simp only [Bool.false_eq_true, if_false] at hres ⊢
    have hhead : (BM.headD []).length = n := by
      match BM, hne with
      | b0 :: rest, _ => exact hrect b0 (by simp)
    have hdlen : (npTranspose BM).length = n :=
      npTranspose_length BM n hrect hne
    have hD : ∀ t, t < n →
        (npTranspose BM)[t]? = some (BM.map (fun row => row.getD t 0)) := by
      intro t ht
      exact npTranspose_getElem? BM t (by omega)
    have hgb : get_batch false target_length (npTranspose BM) i s
        = (((npTranspose BM).drop i).take (i + s - i),
           (((npTranspose BM).drop (i + 1 + (s - target_length))).take
              (i + 1 + s - (i + 1 + (s - target_length)))).flatten) := rfl
    have hs1 : i + s - i = s := by omega
    have hs2 : i + 1 + s - (i + 1 + (s - target_length))
        = min s target_length := by omega
    rw [hgb, hs1, hs2] at hres
    subst hres
    dsimp only
    have huT : ∀ w t, ∀ row ∈ ((npTranspose BM).drop t).take w,
        row.length = BM.length := fun w t row hrow =>
      npTranspose_row_length BM row
        (List.mem_of_mem_drop (List.mem_of_mem_take hrow))
    refine ⟨Nat.min_le_right _ _, ⟨?_, ?_⟩, ?_, ?_, ?_⟩
    · simp only [List.length_take, List.length_drop, hdlen]
      omega
    · exact huT s i
    · intro r hr j hj
      unfold elemAt
      simp only [List.getD_eq_getElem?_getD]
      rw [slice_getElem?, if_pos hj, hD (i + j) (by omega)]
      simp only [Option.getD_some]
      rw [List.getElem?_map, List.getElem?_eq_getElem hr]
      simp [List.getD_eq_getElem?_getD]
    · have hcnt : (((npTranspose BM).drop (i + 1 + (s - target_length))).take
          (min s target_length)).length = min s target_length := by
        simp only [List.length_take, List.length_drop, hdlen]
        omega
      rw [flatten_length_uniform BM.length _
        (huT (min s target_length) (i + 1 + (s - target_length))), hcnt,
        Nat.mul_comm]
    · intro r hr j hj
      unfold elemAt
      simp only [List.getD_eq_getElem?_getD]
      rw [flatten_getElem?_uniform BM.length _ j r
        (huT (min s target_length) (i + 1 + (s - target_length))) hr]
      rw [slice_getElem?, if_pos hj,
        hD (i + 1 + (s - target_length) + j) (by omega)]
      simp only [Option.some_bind]
      rw [List.getElem?_map, List.getElem?_eq_getElem hr]
      have hidx : i + 1 + (s - target_length) + j
          = i + (s - target_length) + j + 1 := by omega
      simp [List.getD_eq_getElem?_getD, hidx]
  · -- batch_first = True: the stored tensor is `BM` itself.
    simp only [if_true] at hres ⊢
    have hgb : get_batch true target_length BM i s
        = (BM.map (fun row => listSlice row i (i + s)),
           (BM.map (fun row =>
              listSlice row (i + 1 + (s - target_length)) (i + 1 + s))).flatten)
        := rfl
    rw [hgb] at hres
    subst hres
    dsimp only
    have hw : ∀ row ∈ BM.map (fun row =>
        listSlice row (i + 1 + (s - target_length)) (i + 1 + s)),
        row.length = min s target_length := by
      intro row hrow
      rw [List.mem_map] at hrow
      obtain ⟨r0, hr0, rfl⟩ := hrow
      unfold listSlice
      simp only [List.length_take, List.length_drop, hrect r0 hr0]
      omega
    refine ⟨Nat.min_le_right _ _, ⟨by simp, ?_⟩, ?_, ?_, ?_⟩
    · intro row hrow
      rw [List.mem_map] at hrow
      obtain ⟨r0, hr0, rfl⟩ := hrow
      unfold listSlice
      simp only [List.length_take, List.length_drop, hrect r0 hr0]
      omega
    · intro r hr j hj
      unfold elemAt
      rw [map_slice_getD BM i (i + s) r j hr (by omega)]
    · rw [flatten_length_uniform (min s target_length) _ hw]
      simp
    · intro r hr j hj
      unfold elemAt
      simp only [List.getD_eq_getElem?_getD]
      rw [flatten_getElem?_uniform (min s target_length) _ r j hw hj,
        List.getElem?_map, List.getElem?_eq_getElem hr]
      simp only [Option.map_some', Option.some_bind, listSlice]
      rw [slice_getElem?, if_pos (by omega : j < i + 1 + s -
        (i + 1 + (s - target_length)))]
      have hidx : i + 1 + (s - target_length) + j
          = i + (s - target_length) + j + 1 := by omega
      simp [List.getD_eq_getElem?_getD, List.getElem?_eq_getElem hr, hidx]

/-- Witness for `get_batch_spec` at
`BM = [[0, 1, 2, 3, 4], [10, 11, 12, 13, 14]]`, `batch_first = false`,
`target_length = 2`, `i = 1`, `seq_len = 3`. -/
theorem get_batch_spec_witness :
    (([[0, 1, 2, 3, 4], [10, 11, 12, 13, 14]] : List (List Int)) ≠ [] ∧
     (∀ row ∈ ([[0, 1, 2, 3, 4], [10, 11, 12, 13, 14]] : List (List Int)),
        row.length = 5) ∧ 1 + 1 + 3 ≤ 5) ∧
    ∀ res, res = get_batch false 2
        (if false then [[0, 1, 2, 3, 4], [10, 11, 12, 13, 14]]
         else npTranspose [[0, 1, 2, 3, 4], [10, 11, 12, 13, 14]]) 1 3 →
      min 3 2 ≤ 2 ∧
      (if false
        then res.1.length = 2 ∧ ∀ row ∈ res.1, row.length = 3
        else res.1.length = 3 ∧ ∀ row ∈ res.1, row.length = 2) ∧
      (∀ r, r < 2 → ∀ j, j < 3 →
        (if false then elemAt res.1 r j else elemAt res.1 j r)
          = elemAt [[0, 1, 2, 3, 4], [10, 11, 12, 13, 14]] r (1 + j)) ∧
      res.2.length = 2 * min 3 2 ∧
      (∀ r, r < 2 → ∀ j, j < min 3 2 →
        res.2.getD (if false then r * min 3 2 + j else j * 2 + r) 0
          = elemAt [[0, 1, 2, 3, 4], [10, 11, 12, 13, 14]]
              r (1 + (3 - 2) + j + 1)) :=
  ⟨⟨by decide, by decide, by decide⟩, by
    have h := get_batch_spec false 2 [[0, 1, 2, 3, 4], [10, 11, 12, 13, 14]]
      5 (by decide) (by decide) 1 3 (by decide)
    simpa using h⟩
